import Mathlib

/-!
Shallow embedding of `lib/layer_utils/generate_anchors.py` (Faster R-CNN anchor
generation).  Numbers are modelled as rationals (the Python code computes in
float64; all values arising in the claims are dyadic rationals computed
exactly).  `np.round` is round-half-to-even (banker's rounding); it is embedded
as `npRound`.  `np.round(np.sqrt q)` is embedded exactly as `roundSqrt`, the
round-half-to-even of the real square root, computed by integer arithmetic.
A fallible operation (`np.hstack`, which raises on shape mismatch) returns
`Option`.
-/

namespace GenerateAnchors

/-- A box `(x1, y1, x2, y2)`: top-left and bottom-right corners, inclusive. -/
structure Box where
  x1 : ℚ
  y1 : ℚ
  x2 : ℚ
  y2 : ℚ
deriving DecidableEq, Repr

/-- `np.round` on a rational: round half to even (IEEE / numpy semantics). -/
def npRound (q : ℚ) : ℤ :=
  let f := ⌊q⌋
  let r := q - (f : ℚ)
  if r < 1/2 then f
  else if 1/2 < r then f + 1
  else if f % 2 = 0 then f else f + 1

/-- `np.round (np.sqrt q)` computed exactly for `q ≥ 0`: the round-half-to-even
of the real square root of `q`, via integer comparison with `(n + 1/2)^2`. -/
def roundSqrt (q : ℚ) : ℤ :=
  let n : ℕ := Nat.sqrt ⌊q⌋.toNat
  if ((n : ℚ) + 1/2) ^ 2 < q then (n : ℤ) + 1
  else if q < ((n : ℚ) + 1/2) ^ 2 then (n : ℤ)
  else if (n : ℤ) % 2 = 0 then (n : ℤ) else (n : ℤ) + 1

/-- `_whctrs`: width, height, x center and y center of an anchor. -/
def whctrs (anchor : Box) : ℚ × ℚ × ℚ × ℚ :=
  let w := anchor.x2 - anchor.x1 + 1
  let h := anchor.y2 - anchor.y1 + 1
  let x_ctr := anchor.x1 + (1/2) * (w - 1)
  let y_ctr := anchor.y1 + (1/2) * (h - 1)
  (w, h, x_ctr, y_ctr)

/-- `_mkanchors`: boxes from parallel width/height vectors around a center.
`np.hstack` raises a `ValueError` when the column lengths differ, hence the
`Option`. -/
def mkanchors (ws hs : List ℚ) (x_ctr y_ctr : ℚ) : Option (List Box) :=
  if ws.length = hs.length then
    some ((ws.zip hs).map (fun p =>
      ⟨x_ctr - (1/2) * (p.1 - 1), y_ctr - (1/2) * (p.2 - 1),
       x_ctr + (1/2) * (p.1 - 1), y_ctr + (1/2) * (p.2 - 1)⟩))
  else none

/-- `_ratio_enum`: one anchor per aspect ratio, holding area fixed.
`wh.1, wh.2.1, wh.2.2.1, wh.2.2.2` are the `w, h, x_ctr, y_ctr` of the code. -/
def ratio_enum (anchor : Box) (ratios : List ℚ) : Option (List Box) :=
  let wh := whctrs anchor
  let size := wh.1 * wh.2.1
  let size_ratios := ratios.map (fun r => size / r)
  let ws := size_ratios.map (fun sr => ((roundSqrt sr : ℤ) : ℚ))
  let hs := (ws.zip ratios).map (fun p => ((npRound (p.1 * p.2) : ℤ) : ℚ))
  mkanchors ws hs wh.2.2.1 wh.2.2.2

/-- `_scale_enum`: one anchor per scale, scaling width and height uniformly. -/
def scale_enum (anchor : Box) (scales : List ℚ) : Option (List Box) :=
  let wh := whctrs anchor
  let ws := scales.map (fun s => wh.1 * s)
  let hs := scales.map (fun s => wh.2.1 * s)
  mkanchors ws hs wh.2.2.1 wh.2.2.2

/-- `np.array([1, 1, base_size, base_size]) - 1`. -/
def base_anchor (base_size : ℚ) : Box :=
  ⟨1 - 1, 1 - 1, base_size - 1, base_size - 1⟩

/-- `np.vstack([_scale_enum(ratio_anchors[i, :], scales) for i in range(...)])`:
one scale table per ratio anchor, concatenated in order.  `np.vstack` on an
empty list raises `ValueError` ("need at least one array to concatenate"),
hence `none` for no anchors. -/
def vstack_scale (anchors : List Box) (scales : List ℚ) : Option (List Box) :=
  match anchors with
  | [] => none
  | [a] => scale_enum a scales
  | a :: rest => do
      let t ← scale_enum a scales
      let r ← vstack_scale rest scales
      return t ++ r

/-- `generate_anchors`: ratio enumeration on the base anchor, then scale
enumeration on each ratio anchor, stacked. -/
def generate_anchors (base_size : ℚ) (ratios scales : List ℚ) :
    Option (List Box) := do
  let ratio_anchors ← ratio_enum (base_anchor base_size) ratios
  vstack_scale ratio_anchors scales

/-! ### Normal forms

The `mkanchors` shape check never fails inside the pipeline (the width and
height vectors it is handed always have equal length), so `_ratio_enum` and
`_scale_enum` always return `some` of an explicit row-by-row formula; the
whole pipeline fails only through `np.vstack` on an empty ratios list.  The
formulas below are obtained by unfolding the definitions above; the lemmas
prove the agreement. -/

/-- The rounded width `round (sqrt (w * h / r))` used by `_ratio_enum`. -/
def rW (a : Box) (r : ℚ) : ℤ :=
  roundSqrt ((a.x2 - a.x1 + 1) * (a.y2 - a.y1 + 1) / r)

/-- The rounded height `round (rW * r)` used by `_ratio_enum`. -/
def rH (a : Box) (r : ℚ) : ℤ :=
  npRound (((rW a r : ℤ) : ℚ) * r)

/-- The row of `_ratio_enum a ratios` corresponding to one ratio `r`. -/
def ratioBox (a : Box) (r : ℚ) : Box :=
  let xc := a.x1 + (1/2) * ((a.x2 - a.x1 + 1) - 1)
  let yc := a.y1 + (1/2) * ((a.y2 - a.y1 + 1) - 1)
  ⟨xc - (1/2) * (((rW a r : ℤ) : ℚ) - 1), yc - (1/2) * (((rH a r : ℤ) : ℚ) - 1),
   xc + (1/2) * (((rW a r : ℤ) : ℚ) - 1), yc + (1/2) * (((rH a r : ℤ) : ℚ) - 1)⟩

/-- The row of `_scale_enum a scales` corresponding to one scale `s`. -/
def scaleBox (a : Box) (s : ℚ) : Box :=
  let xc := a.x1 + (1/2) * ((a.x2 - a.x1 + 1) - 1)
  let yc := a.y1 + (1/2) * ((a.y2 - a.y1 + 1) - 1)
  ⟨xc - (1/2) * ((a.x2 - a.x1 + 1) * s - 1), yc - (1/2) * ((a.y2 - a.y1 + 1) * s - 1),
   xc + (1/2) * ((a.x2 - a.x1 + 1) * s - 1), yc + (1/2) * ((a.y2 - a.y1 + 1) * s - 1)⟩

lemma mkanchors_eq_some (ws hs : List ℚ) (x_ctr y_ctr : ℚ)
    (h : ws.length = hs.length) :
    mkanchors ws hs x_ctr y_ctr =
      some ((ws.zip hs).map (fun p =>
        ⟨x_ctr - (1/2) * (p.1 - 1), y_ctr - (1/2) * (p.2 - 1),
         x_ctr + (1/2) * (p.1 - 1), y_ctr + (1/2) * (p.2 - 1)⟩)) := by
  simp [mkanchors, h]

lemma zip_map_same (f g : ℚ → ℚ) (l : List ℚ) :
    (l.map f).zip (l.map g) = l.map (fun r => (f r, g r)) := by
  induction l with
  | nil => rfl
  | cons x t ih => simp [ih]

lemma mkanchors_maps (l : List ℚ) (f g : ℚ → ℚ) (x y : ℚ) :
    mkanchors (l.map f) (l.map g) x y =
      some (l.map (fun r => (⟨x - (1/2) * (f r - 1), y - (1/2) * (g r - 1),
        x + (1/2) * (f r - 1), y + (1/2) * (g r - 1)⟩ : Box))) := by
  unfold mkanchors
  rw [if_pos (by simp), zip_map_same f g l, List.map_map]
  rfl

lemma ratio_enum_eq (a : Box) (ratios : List ℚ) :
    ratio_enum a ratios = some (ratios.map (ratioBox a)) := by
  have hz : (ratios.map (fun r => ((roundSqrt
        ((whctrs a).1 * (whctrs a).2.1 / r) : ℤ) : ℚ))).zip ratios =
      ratios.map (fun r => (((roundSqrt ((whctrs a).1 * (whctrs a).2.1 / r) : ℤ) : ℚ), r)) := by
    have := zip_map_same
      (fun r => ((roundSqrt ((whctrs a).1 * (whctrs a).2.1 / r) : ℤ) : ℚ)) id ratios
    simpa using this
  show mkanchors _ _ _ _ = _
  rw [List.map_map]
  rw [show ((fun sr : ℚ => ((roundSqrt sr : ℤ) : ℚ)) ∘ fun r : ℚ =>
      (whctrs a).1 * (whctrs a).2.1 / r) =
    (fun r : ℚ => ((roundSqrt ((whctrs a).1 * (whctrs a).2.1 / r) : ℤ) : ℚ)) from rfl]
  rw [hz, List.map_map, mkanchors_maps]
  refine congrArg some (List.map_congr_left ?_)
  intro r _
  simp only [ratioBox, rW, rH, whctrs, Function.comp]

lemma scale_enum_eq (a : Box) (scales : List ℚ) :
    scale_enum a scales = some (scales.map (scaleBox a)) := by
  show mkanchors _ _ _ _ = _
  rw [mkanchors_maps]
  refine congrArg some (List.map_congr_left ?_)
  intro s _
  simp only [scaleBox, whctrs]

lemma vstack_scale_eq (scales : List ℚ) :
    ∀ l : List Box, l ≠ [] → vstack_scale l scales =
      some ((l.map (fun a => scales.map (scaleBox a))).flatten) := by
  intro l
  induction l with
  | nil => intro h; exact absurd rfl h
  | cons a t ih =>
    intro _
    cases t with
    | nil =>
      show scale_enum a scales = _
      rw [scale_enum_eq]
      simp
    | cons b u =>
      show (scale_enum a scales).bind _ = _
      rw [scale_enum_eq]
      show (vstack_scale (b :: u) scales).bind _ = _
      rw [ih (List.cons_ne_nil b u)]
      simp

lemma generate_anchors_eq (base_size : ℚ) (ratios scales : List ℚ)
    (hne : ratios ≠ []) :
    generate_anchors base_size ratios scales =
      some (((ratios.map (ratioBox (base_anchor base_size))).map
        (fun a => scales.map (scaleBox a))).flatten) := by
  show (ratio_enum _ _).bind _ = _
  rw [ratio_enum_eq]
  show vstack_scale _ _ = _
  exact vstack_scale_eq scales _ (by simpa using hne)

lemma generate_anchors_nil (base_size : ℚ) (scales : List ℚ) :
    generate_anchors base_size [] scales = none := by
  show (ratio_enum (base_anchor base_size) []).bind
    (fun ratio_anchors => vstack_scale ratio_anchors scales) = none
  rw [ratio_enum_eq]
  rfl

lemma generate_anchors_ne_nil {base_size : ℚ} {ratios scales : List ℚ}
    {T : List Box} (hT : generate_anchors base_size ratios scales = some T) :
    ratios ≠ [] := by
  intro h
  subst h
  rw [generate_anchors_nil] at hT
  exact Option.noConfusion hT

/-- `npRound` with its `let` bindings expanded. -/
lemma npRound_eq (q : ℚ) :
    npRound q = if q - (⌊q⌋ : ℚ) < 1/2 then ⌊q⌋
      else if 1/2 < q - (⌊q⌋ : ℚ) then ⌊q⌋ + 1
      else if ⌊q⌋ % 2 = 0 then ⌊q⌋ else ⌊q⌋ + 1 := rfl

/-- `roundSqrt` with its `let` binding expanded. -/
lemma roundSqrt_eq (q : ℚ) :
    roundSqrt q =
      if ((Nat.sqrt ⌊q⌋.toNat : ℚ) + 1/2) ^ 2 < q then (Nat.sqrt ⌊q⌋.toNat : ℤ) + 1
      else if q < ((Nat.sqrt ⌊q⌋.toNat : ℚ) + 1/2) ^ 2 then (Nat.sqrt ⌊q⌋.toNat : ℤ)
      else if (Nat.sqrt ⌊q⌋.toNat : ℤ) % 2 = 0 then (Nat.sqrt ⌊q⌋.toNat : ℤ)
      else (Nat.sqrt ⌊q⌋.toNat : ℤ) + 1 := rfl

/-! ### Concrete values of the two rounding functions -/

lemma roundSqrt_512 : roundSqrt (512 : ℚ) = 23 := by
  unfold roundSqrt
  rw [show Int.toNat ⌊(512:ℚ)⌋ = 512 by simp]
  norm_num

lemma roundSqrt_256 : roundSqrt (256 : ℚ) = 16 := by
  unfold roundSqrt
  rw [show Int.toNat ⌊(256:ℚ)⌋ = 256 by simp]
  norm_num

lemma roundSqrt_128 : roundSqrt (128 : ℚ) = 11 := by
  unfold roundSqrt
  rw [show Int.toNat ⌊(128:ℚ)⌋ = 128 by simp]
  norm_num

lemma roundSqrt_two : roundSqrt (2 : ℚ) = 1 := by
  unfold roundSqrt
  rw [show Int.toNat ⌊(2:ℚ)⌋ = 2 by simp]
  norm_num

lemma roundSqrt_zero : roundSqrt (0 : ℚ) = 0 := by
  unfold roundSqrt
  norm_num

lemma roundSqrt_fifth : roundSqrt (1/5 : ℚ) = 0 := by
  unfold roundSqrt
  rw [show Int.toNat ⌊(1/5:ℚ)⌋ = 0 by norm_num [Int.floor_eq_iff]]
  norm_num

lemma npRound_halfword : npRound (23 / 2 : ℚ) = 12 := by unfold npRound; norm_num
lemma npRound_sixteen : npRound (16 : ℚ) = 16 := by unfold npRound; norm_num
lemma npRound_twentytwo : npRound (22 : ℚ) = 22 := by unfold npRound; norm_num
lemma npRound_half : npRound (1/2 : ℚ) = 0 := by unfold npRound; norm_num
lemma npRound_zero : npRound (0 : ℚ) = 0 := by unfold npRound; norm_num

/-! ### Indexing into the stacked table -/

lemma flatten_map_length {α β : Type} (f : α → List β) (n : ℕ)
    (hf : ∀ a, (f a).length = n) :
    ∀ L : List α, ((L.map f).flatten).length = L.length * n := by
  intro L
  induction L with
  | nil => simp
  | cons a t ih => simp [hf, ih, Nat.succ_mul, Nat.add_comm]

lemma flatten_map_get {α β : Type} (f : α → List β) (n : ℕ)
    (hf : ∀ a, (f a).length = n) :
    ∀ (L : List α) (i j : ℕ), j < n → ∀ (hi : i < L.length),
      ((L.map f).flatten).get? (i * n + j) = (f (L.get ⟨i, hi⟩)).get? j := by
  intro L
  induction L with
  | nil => intro i j _ hi; exact absurd hi (Nat.not_lt_zero i)
  | cons a t ih =>
    intro i j hj hi
    match i with
    | 0 =>
      show ((f a ++ (t.map f).flatten)).get? (0 * n + j) = _
      rw [Nat.zero_mul, Nat.zero_add]
      exact List.get?_append (by rw [hf]; exact hj)
    | i + 1 =>
      show ((f a ++ (t.map f).flatten)).get? ((i + 1) * n + j) = _
      rw [List.get?_append_right (by rw [hf, Nat.succ_mul]; omega)]
      rw [show (i + 1) * n + j - (f a).length = i * n + j by rw [hf, Nat.succ_mul]; omega]
      exact ih i j hj (Nat.lt_of_succ_lt_succ hi)

/-! ### Claims -/

/-- C1: with the default parameters `base_size = 16`, `ratios = (0.5, 1, 2)`,
`scales = (8, 16, 32)`, `generate_anchors` returns exactly the 9×4 reference
table, row for row, starting `(-84, -40, 99, 55)` and ending
`(-168, -344, 183, 359)`. -/
theorem C1_reference_table :
    generate_anchors 16 [1/2, 1, 2] [8, 16, 32] =
      some [⟨-84, -40, 99, 55⟩, ⟨-176, -88, 191, 103⟩, ⟨-360, -184, 375, 199⟩,
            ⟨-56, -56, 71, 71⟩, ⟨-120, -120, 135, 135⟩, ⟨-248, -248, 263, 263⟩,
            ⟨-36, -80, 51, 95⟩, ⟨-80, -168, 95, 183⟩, ⟨-168, -344, 183, 359⟩] := by
  rw [generate_anchors_eq 16 [1/2, 1, 2] [8, 16, 32] (List.cons_ne_nil _ _)]
  norm_num [base_anchor, ratioBox, scaleBox, rW, rH, roundSqrt_512, roundSqrt_256,
    roundSqrt_128, npRound_halfword, npRound_sixteen, npRound_twentytwo, Box.mk.injEq]

/-- C2 counterexample: `generate_anchors` performs no input validation.  With
the invalid parameter `base_size = 0` (ratio 1, scale 8) it does not fail: it
returns a one-row table, and that row `(0, 0, -1, -1)` is a degenerate box
with `x2 < x1`. -/
theorem C2_counterexample :
    generate_anchors 0 [1] [8] = some [⟨0, 0, -1, -1⟩] ∧
      generate_anchors 0 [1] [8] ≠ none ∧ (-1 : ℚ) < 0 := by
  refine ⟨?_, ?_, by norm_num⟩
  · rw [generate_anchors_eq 0 [1] [8] (List.cons_ne_nil _ _)]
    norm_num [base_anchor, ratioBox, scaleBox, rW, rH, roundSqrt_zero, npRound_zero,
      Box.mk.injEq]
  · rw [generate_anchors_eq 0 [1] [8] (List.cons_ne_nil _ _)]
    simp

/-- C2 amended: `generate_anchors` never validates its parameter values.
Non-positive `base_size`, ratios or scales are not rejected: for every
nonempty ratios list the function returns a table with
`len(ratios) * len(scales)` rows (degenerate boxes are produced silently for
non-positive parameters).  Its only failure is `np.vstack` on an empty
ratios list, which is unrelated to the sign of any parameter. -/
theorem C2_amended_no_validation (base_size : ℚ) (ratios scales : List ℚ) :
    (ratios = [] → generate_anchors base_size ratios scales = none) ∧
      (ratios ≠ [] → ∃ T, generate_anchors base_size ratios scales = some T ∧
        T.length = ratios.length * scales.length) := by
  constructor
  · intro h
    subst h
    exact generate_anchors_nil base_size scales
  · intro hne
    refine ⟨_, generate_anchors_eq base_size ratios scales hne, ?_⟩
    rw [flatten_map_length (fun a => scales.map (scaleBox a)) scales.length (by simp)]
    simp

/-- C2 amended witness: at `base_size = 0` the code still returns a one-row
table for `ratios = [1]`, and fails only for `ratios = []`. -/
theorem C2_amended_no_validation_witness :
    generate_anchors 0 [] [8] = none ∧
      (∃ T, generate_anchors 0 [1] [8] = some T ∧
        T.length = ([1] : List ℚ).length * ([8] : List ℚ).length) :=
  ⟨(C2_amended_no_validation 0 [] [8]).1 rfl,
   (C2_amended_no_validation 0 [1] [8]).2 (List.cons_ne_nil 1 [])⟩

/-- C3 counterexample: the rounding in `_ratio_enum` is NOT round-half-away-
from-zero.  For the anchor `(0, 0, 0, 0)` and the ratio `1/2`, the
intermediate value `new_w * r = 1 * (1/2) = 0.5` lies exactly halfway between
`0` and `1`; `np.round` returns `0` (the integer of smaller magnitude, per
round-half-to-even), not `1`, so the resulting box has height `0`. -/
theorem C3_counterexample :
    roundSqrt ((1 : ℚ) * 1 / (1/2)) = 1 ∧
      npRound ((1 : ℚ) * (1/2)) = 0 ∧ (0 : ℤ) ≠ 1 ∧
      ratio_enum ⟨0, 0, 0, 0⟩ [1/2] = some [⟨0, 1/2, 0, -1/2⟩] := by
  refine ⟨?_, ?_, by norm_num, ?_⟩
  · rw [show (1 : ℚ) * 1 / (1/2) = 2 by norm_num]
    exact roundSqrt_two
  · rw [show (1 : ℚ) * (1/2) = 1/2 by norm_num]
    exact npRound_half
  · rw [ratio_enum_eq]
    norm_num [ratioBox, rW, rH, roundSqrt_two, npRound_half, Box.mk.injEq]

/-- C3 amended: the rounding applied to `new_w = round (sqrt size_ratio)` and
`new_h = round (new_w * r)` in `_ratio_enum` is round-half-to-even (numpy
banker's rounding): at an exact tie `k + 1/2` the result is the even one of
`k` and `k + 1`, not the integer of larger magnitude.  (On the default
parameters the only tie is `11.5 → 12`, where the two conventions agree.) -/
theorem C3_amended_round_half_even :
    (∀ k : ℤ, npRound ((k : ℚ) + 1/2) = if k % 2 = 0 then k else k + 1) ∧
      (∀ n : ℕ, roundSqrt (((n : ℚ) + 1/2) ^ 2) =
        if (n : ℤ) % 2 = 0 then (n : ℤ) else (n : ℤ) + 1) := by
  constructor
  · intro k
    rw [npRound_eq]
    rw [show ⌊(k : ℚ) + 1/2⌋ = k by
      rw [Int.floor_eq_iff]
      constructor <;> [skip; push_cast] <;> linarith]
    rw [show ((k : ℚ) + 1/2) - k = 1/2 by ring]
    norm_num
  · intro n
    have hn : (0 : ℚ) ≤ (n : ℚ) := Nat.cast_nonneg n
    rw [roundSqrt_eq]
    rw [show ⌊((n : ℚ) + 1/2) ^ 2⌋ = (n : ℤ) * n + n by
      rw [Int.floor_eq_iff]
      constructor <;> push_cast <;> nlinarith [hn]]
    rw [show ((n : ℤ) * n + n).toNat = n * n + n by
      rw [show (n : ℤ) * n + n = ((n * n + n : ℕ) : ℤ) by push_cast; ring]
      exact Int.toNat_natCast _]
    rw [Nat.sqrt_add_eq n (Nat.le_add_left n n)]
    have hne : ¬ ((n : ℚ) + 1/2) ^ 2 < ((n : ℚ) + 1/2) ^ 2 := lt_irrefl _
    rw [if_neg hne, if_neg hne]

/-- C4 counterexample: the empty ratios list satisfies the claim's validity
condition vacuously (no ratio is non-positive, the scale 8 is positive), yet
`generate_anchors` returns no table at all there — `np.vstack([])` raises
`ValueError` (modelled as `none`) — instead of the 0-row table the claim's
universal statement would require. -/
theorem C4_counterexample :
    (∀ r ∈ ([] : List ℚ), 0 < r) ∧ (∀ s ∈ ([8] : List ℚ), 0 < s) ∧
      generate_anchors 16 [] [8] = none :=
  ⟨by simp, by norm_num, generate_anchors_nil 16 [8]⟩

/-- C4 amended: for valid inputs with a nonempty ratios list, the table has
exactly `len(ratios) * len(scales)` rows, and the row at index
`i * num_scales + j` is the box obtained from the `i`-th ratio and the `j`-th
scale (outer loop over ratios, inner over scales).  (With an empty ratios
list the code raises from `np.vstack` instead of returning a 0-row table.) -/
theorem C4_row_order (base_size : ℚ) (ratios scales : List ℚ)
    (hrs : ∀ r ∈ ratios, 0 < r) (hss : ∀ s ∈ scales, 0 < s)
    (hne : ratios ≠ []) :
    ∃ T, generate_anchors base_size ratios scales = some T ∧
      T.length = ratios.length * scales.length ∧
      ∀ (i j : ℕ) (hi : i < ratios.length) (hj : j < scales.length),
        T.get? (i * scales.length + j) =
          some (scaleBox (ratioBox (base_anchor base_size) (ratios.get ⟨i, hi⟩))
            (scales.get ⟨j, hj⟩)) := by
  refine ⟨_, generate_anchors_eq base_size ratios scales hne, ?_, ?_⟩
  · rw [flatten_map_length (fun a => scales.map (scaleBox a)) scales.length (by simp)]
    simp
  · intro i j hi hj
    rw [flatten_map_get (fun a => scales.map (scaleBox a)) scales.length (by simp) _ i j hj
      (by simpa using hi)]
    rw [List.get?_map, List.get?_eq_get hj]
    simp

/-- C4 witness at the default parameters, row (2, 1). -/
theorem C4_row_order_witness :
    ∃ T, generate_anchors 16 [1/2, 1, 2] [8, 16, 32] = some T ∧
      T.length = 3 * 3 ∧
      ∀ (i j : ℕ) (hi : i < 3) (hj : j < 3),
        T.get? (i * 3 + j) =
          some (scaleBox (ratioBox (base_anchor 16) (([1/2, 1, 2] : List ℚ).get ⟨i, hi⟩))
            (([8, 16, 32] : List ℚ).get ⟨j, hj⟩)) :=
  C4_row_order 16 [1/2, 1, 2] [8, 16, 32] (by norm_num) (by norm_num)
    (List.cons_ne_nil _ _)

/-! ### Membership in the stacked table -/

lemma mem_generate_anchors {base_size : ℚ} {ratios scales : List ℚ} {T : List Box}
    {box : Box} (hT : generate_anchors base_size ratios scales = some T)
    (hm : box ∈ T) :
    ∃ r ∈ ratios, ∃ s ∈ scales,
      box = scaleBox (ratioBox (base_anchor base_size) r) s := by
  rw [generate_anchors_eq base_size ratios scales (generate_anchors_ne_nil hT)] at hT
  obtain rfl := Option.some_injective _ hT.symm
  simp only [List.mem_flatten, List.mem_map] at hm
  obtain ⟨l, ⟨a, ⟨r, hr, rfl⟩, rfl⟩, hbox⟩ := hm
  obtain ⟨s, hs, rfl⟩ := List.mem_map.mp hbox
  exact ⟨r, hr, s, hs, rfl⟩

lemma scaleBox_ratioBox_dx (a : Box) (r s : ℚ) :
    (scaleBox (ratioBox a r) s).x2 - (scaleBox (ratioBox a r) s).x1 =
      ((rW a r : ℤ) : ℚ) * s - 1 := by
  simp only [scaleBox, ratioBox]
  ring

lemma scaleBox_ratioBox_dy (a : Box) (r s : ℚ) :
    (scaleBox (ratioBox a r) s).y2 - (scaleBox (ratioBox a r) s).y1 =
      ((rH a r : ℤ) : ℚ) * s - 1 := by
  simp only [scaleBox, ratioBox]
  ring

/-- C5 counterexample: all parameters positive (hence valid), yet the output
box is degenerate.  With `base_size = 1`, `ratio = 5`, `scale = 8`, the
rounded width `round (sqrt (1/5)) = 0`, and the returned box
`(1/2, 1/2, -1/2, -1/2)` has `x2 < x1` and `y2 < y1`. -/
theorem C5_counterexample :
    ((0 : ℚ) < 1 ∧ (0 : ℚ) < 5 ∧ (0 : ℚ) < 8) ∧
      generate_anchors 1 [5] [8] = some [⟨1/2, 1/2, -1/2, -1/2⟩] ∧
      ¬ ((1/2 : ℚ) < -1/2) := by
  refine ⟨by norm_num, ?_, by norm_num⟩
  rw [generate_anchors_eq 1 [5] [8] (List.cons_ne_nil _ _)]
  norm_num [base_anchor, ratioBox, scaleBox, rW, rH, roundSqrt_fifth, npRound_zero,
    Box.mk.injEq]

/-- C5 amended: every output box satisfies `x2 > x1` and `y2 > y1` provided
the rounded dimensions stay positive after scaling: for each ratio `r` and
scale `s`, `round (sqrt (size/r)) * s > 1` and
`round (round (sqrt (size/r)) * r) * s > 1`.  (The default parameters satisfy
this; valid-but-extreme ratios or scales need not, see the counterexample.) -/
theorem C5_amended_positivity (base_size : ℚ) (ratios scales : List ℚ)
    (h : ∀ r ∈ ratios, ∀ s ∈ scales,
      1 < ((rW (base_anchor base_size) r : ℤ) : ℚ) * s ∧
      1 < ((rH (base_anchor base_size) r : ℤ) : ℚ) * s)
    (T : List Box) (hT : generate_anchors base_size ratios scales = some T) :
    ∀ box ∈ T, box.x1 < box.x2 ∧ box.y1 < box.y2 := by
  intro box hbox
  obtain ⟨r, hr, s, hs, rfl⟩ := mem_generate_anchors hT hbox
  obtain ⟨h1, h2⟩ := h r hr s hs
  have e1 := scaleBox_ratioBox_dx (base_anchor base_size) r s
  have e2 := scaleBox_ratioBox_dy (base_anchor base_size) r s
  constructor <;> linarith

/-- C5 amended witness: the single output row for `base_size = 16`,
`ratio = 1`, `scale = 8` is non-degenerate. -/
theorem C5_amended_positivity_witness :
    (scaleBox (ratioBox (base_anchor 16) 1) 8).x1 <
        (scaleBox (ratioBox (base_anchor 16) 1) 8).x2 ∧
      (scaleBox (ratioBox (base_anchor 16) 1) 8).y1 <
        (scaleBox (ratioBox (base_anchor 16) 1) 8).y2 :=
  C5_amended_positivity 16 [1] [8]
    (by norm_num [rW, rH, base_anchor, roundSqrt_256, npRound_sixteen])
    _ (generate_anchors_eq 16 [1] [8] (List.cons_ne_nil _ _))
    (scaleBox (ratioBox (base_anchor 16) 1) 8) (by simp)

/-- C6: every box produced by `_scale_enum` from a box shares that box's
center, both `x_ctr` and `y_ctr`, exactly (centers as computed by
`_whctrs`). -/
theorem C6_center_conservation (a : Box) (scales : List ℚ) (S : List Box)
    (hS : scale_enum a scales = some S) :
    ∀ box ∈ S,
      (whctrs box).2.2.1 = (whctrs a).2.2.1 ∧
      (whctrs box).2.2.2 = (whctrs a).2.2.2 := by
  rw [scale_enum_eq] at hS
  obtain rfl := Option.some_injective _ hS.symm
  intro box hbox
  obtain ⟨s, _, rfl⟩ := List.mem_map.mp hbox
  constructor <;> (simp only [whctrs, scaleBox]; ring)

/-- C6 witness: the `0.5`-ratio box of the default run, scaled by 8, keeps
its center. -/
theorem C6_center_conservation_witness :
    (whctrs (scaleBox ⟨-7/2, 2, 37/2, 13⟩ 8)).2.2.1 =
        (whctrs (⟨-7/2, 2, 37/2, 13⟩ : Box)).2.2.1 ∧
      (whctrs (scaleBox ⟨-7/2, 2, 37/2, 13⟩ 8)).2.2.2 =
        (whctrs (⟨-7/2, 2, 37/2, 13⟩ : Box)).2.2.2 :=
  C6_center_conservation ⟨-7/2, 2, 37/2, 13⟩ [8] _ (scale_enum_eq _ _)
    (scaleBox ⟨-7/2, 2, 37/2, 13⟩ 8) (by simp)

/-! ### Rounding error bounds (for C7) -/

lemma npRound_close (q : ℚ) : |((npRound q : ℤ) : ℚ) - q| ≤ 1/2 := by
  rw [npRound_eq]
  have h1 : ((⌊q⌋ : ℤ) : ℚ) ≤ q := Int.floor_le q
  have h2 : q < ((⌊q⌋ : ℤ) : ℚ) + 1 := Int.lt_floor_add_one q
  split_ifs with ha hb hc <;> rw [abs_le] <;> push_cast <;> constructor <;> linarith

lemma roundSqrt_nonneg (q : ℚ) : 0 ≤ roundSqrt q := by
  rw [roundSqrt_eq]
  split_ifs <;> omega

lemma roundSqrt_bounds (q : ℚ) (hq : 0 ≤ q) :
    q ≤ (((roundSqrt q : ℤ) : ℚ) + 1/2) ^ 2 ∧
      ((roundSqrt q : ℤ) : ℚ) ^ 2 - q ≤ ((roundSqrt q : ℤ) : ℚ) + 1/4 := by
  have hfl0 : (0 : ℤ) ≤ ⌊q⌋ := Int.floor_nonneg.mpr hq
  have hcast : ((⌊q⌋.toNat : ℤ)) = ⌊q⌋ := Int.toNat_of_nonneg hfl0
  have hqcast : ((⌊q⌋.toNat : ℚ)) = ((⌊q⌋ : ℤ) : ℚ) := by exact_mod_cast congrArg Int.cast hcast
  have h1 : ((Nat.sqrt ⌊q⌋.toNat : ℕ) : ℚ) ^ 2 ≤ q := by
    have hs := Nat.sqrt_le' ⌊q⌋.toNat
    calc ((Nat.sqrt ⌊q⌋.toNat : ℕ) : ℚ) ^ 2
        = (((Nat.sqrt ⌊q⌋.toNat) ^ 2 : ℕ) : ℚ) := by push_cast; ring
      _ ≤ ((⌊q⌋.toNat : ℕ) : ℚ) := by exact_mod_cast hs
      _ = ((⌊q⌋ : ℤ) : ℚ) := hqcast
      _ ≤ q := Int.floor_le q
  have h2 : q < (((Nat.sqrt ⌊q⌋.toNat : ℕ) : ℚ) + 1) ^ 2 := by
    have hs := Nat.lt_succ_sqrt' ⌊q⌋.toNat
    calc q < ((⌊q⌋ : ℤ) : ℚ) + 1 := Int.lt_floor_add_one q
      _ = ((⌊q⌋.toNat : ℚ)) + 1 := by rw [hqcast]
      _ ≤ (((Nat.sqrt ⌊q⌋.toNat + 1) ^ 2 : ℕ) : ℚ) := by exact_mod_cast hs
      _ = (((Nat.sqrt ⌊q⌋.toNat : ℕ) : ℚ) + 1) ^ 2 := by push_cast; ring
  have hn0 : (0 : ℚ) ≤ ((Nat.sqrt ⌊q⌋.toNat : ℕ) : ℚ) := Nat.cast_nonneg _
  rw [roundSqrt_eq]
  split_ifs with ha hb hc <;> push_cast <;> constructor
  · nlinarith
  · nlinarith
  · linarith
  · linarith
  · nlinarith
  · nlinarith
  · nlinarith
  · nlinarith

lemma ratio_area_bound (q r : ℚ) (hq : 0 ≤ q) (hr : 0 < r) :
    |((roundSqrt q : ℤ) : ℚ) * ((npRound (((roundSqrt q : ℤ) : ℚ) * r) : ℤ) : ℚ) - q * r| ≤
      ((roundSqrt q : ℤ) : ℚ) / 2 + r * ((roundSqrt q : ℤ) : ℚ) + r / 4 := by
  have hW0 : (0 : ℚ) ≤ ((roundSqrt q : ℤ) : ℚ) := by exact_mod_cast roundSqrt_nonneg q
  obtain ⟨hb1, hb2⟩ := roundSqrt_bounds q hq
  have hH := npRound_close (((roundSqrt q : ℤ) : ℚ) * r)
  rw [abs_le] at hH ⊢
  have habs : |((roundSqrt q : ℤ) : ℚ) ^ 2 - q| ≤ ((roundSqrt q : ℤ) : ℚ) + 1/4 := by
    rw [abs_le]
    constructor <;> nlinarith
  rw [abs_le] at habs
  constructor <;> nlinarith [hH.1, hH.2, habs.1, habs.2, mul_le_mul_of_nonneg_left hH.2 hW0,
    mul_le_mul_of_nonneg_left hH.1 hW0, mul_le_mul_of_nonneg_left habs.2 hr.le,
    mul_le_mul_of_nonneg_left habs.1 hr.le]

lemma ratioBox_dx (a : Box) (r : ℚ) :
    (ratioBox a r).x2 - (ratioBox a r).x1 + 1 = ((rW a r : ℤ) : ℚ) := by
  simp only [ratioBox]
  ring

lemma ratioBox_dy (a : Box) (r : ℚ) :
    (ratioBox a r).y2 - (ratioBox a r).y1 + 1 = ((rH a r : ℤ) : ℚ) := by
  simp only [ratioBox]
  ring

lemma rW_base (b r : ℚ) : rW (base_anchor b) r = roundSqrt (b * b / r) := by
  show roundSqrt _ = _
  congr 1
  simp only [base_anchor]
  ring

lemma rH_base (b r : ℚ) :
    rH (base_anchor b) r = npRound (((roundSqrt (b * b / r) : ℤ) : ℚ) * r) := by
  unfold rH
  rw [rW_base]

/-- C7: for a valid `base_size` and positive ratio `r`, the width `W` and
height `H` of the box `_ratio_enum` produces for `r` satisfy
`|W*H - base_size^2| ≤ W/2 + r*W + r/4`: the area is conserved up to the
error introduced by rounding the width and the height to integers (each
rounding contributes at most `1/2`, propagated through the multiplications). -/
theorem C7_area_conservation (base_size r : ℚ) (hb : 0 < base_size) (hr : 0 < r)
    (R : List Box) (hR : ratio_enum (base_anchor base_size) [r] = some R) :
    ∀ box ∈ R,
      |(box.x2 - box.x1 + 1) * (box.y2 - box.y1 + 1) - base_size * base_size| ≤
        (box.x2 - box.x1 + 1) / 2 + r * (box.x2 - box.x1 + 1) + r / 4 := by
  rw [ratio_enum_eq] at hR
  obtain rfl := Option.some_injective _ hR.symm
  intro box hbox
  rw [show ([r] : List ℚ).map (ratioBox (base_anchor base_size)) =
    [ratioBox (base_anchor base_size) r] from rfl] at hbox
  obtain rfl := List.mem_singleton.mp hbox
  rw [ratioBox_dx, ratioBox_dy, rW_base, rH_base]
  have hq : (0 : ℚ) ≤ base_size * base_size / r := by positivity
  have h := ratio_area_bound (base_size * base_size / r) r hq hr
  rw [div_mul_cancel₀ _ (ne_of_gt hr)] at h
  exact h

/-- C7 witness: default base anchor, ratio `1/2` (`W = 23`, `H = 12`,
`|276 - 256| = 20 ≤ 23/2 + 23/2 + 1/8`). -/
theorem C7_area_conservation_witness :
    |((ratioBox (base_anchor 16) (1/2)).x2 - (ratioBox (base_anchor 16) (1/2)).x1 + 1) *
        ((ratioBox (base_anchor 16) (1/2)).y2 - (ratioBox (base_anchor 16) (1/2)).y1 + 1) -
        (16 : ℚ) * 16| ≤
      ((ratioBox (base_anchor 16) (1/2)).x2 - (ratioBox (base_anchor 16) (1/2)).x1 + 1) / 2 +
        (1/2) * ((ratioBox (base_anchor 16) (1/2)).x2 -
          (ratioBox (base_anchor 16) (1/2)).x1 + 1) + (1/2) / 4 :=
  C7_area_conservation 16 (1/2) (by norm_num) (by norm_num) _ (ratio_enum_eq _ _)
    (ratioBox (base_anchor 16) (1/2)) (by simp)

/-! ### Zip indexing (for C8) -/

lemma zip_get (l1 l2 : List ℚ) :
    ∀ (i : ℕ) (h1 : i < l1.length) (h2 : i < l2.length),
      (l1.zip l2).get? i = some (l1.get ⟨i, h1⟩, l2.get ⟨i, h2⟩) := by
  induction l1 generalizing l2 with
  | nil => intro i h1; exact absurd h1 (Nat.not_lt_zero i)
  | cons a t ih =>
    intro i h1 h2
    match l2, i with
    | [], _ => exact absurd h2 (Nat.not_lt_zero _)
    | b :: u, 0 => rfl
    | b :: u, i + 1 =>
      exact ih u i (Nat.lt_of_succ_lt_succ h1) (Nat.lt_of_succ_lt_succ h2)

/-- C8: `_mkanchors` requires parallel width/height vectors: with different
lengths it fails fast (the `np.hstack` shape mismatch, modelled as `none`);
with equal lengths it returns one row per pair, in input order. -/
theorem C8_shape_mismatch (ws hs : List ℚ) (x_ctr y_ctr : ℚ) :
    (ws.length ≠ hs.length → mkanchors ws hs x_ctr y_ctr = none) ∧
      (ws.length = hs.length → ∃ T, mkanchors ws hs x_ctr y_ctr = some T ∧
        T.length = ws.length ∧
        ∀ (i : ℕ) (hw : i < ws.length) (hh : i < hs.length),
          T.get? i = some ⟨x_ctr - (1/2) * (ws.get ⟨i, hw⟩ - 1),
            y_ctr - (1/2) * (hs.get ⟨i, hh⟩ - 1),
            x_ctr + (1/2) * (ws.get ⟨i, hw⟩ - 1),
            y_ctr + (1/2) * (hs.get ⟨i, hh⟩ - 1)⟩) := by
  constructor
  · intro h
    simp [mkanchors, h]
  · intro h
    refine ⟨_, mkanchors_eq_some ws hs x_ctr y_ctr h, ?_, ?_⟩
    · simp [h]
    · intro i hw hh
      rw [List.get?_map, zip_get ws hs i hw hh]
      rfl

/-- C8 witness: a mismatched pair is rejected; a matched pair yields its row
table. -/
theorem C8_shape_mismatch_witness :
    mkanchors [1] [2, 3] 5 7 = none ∧
      (∃ T, mkanchors [16] [16] (15/2) (15/2) = some T ∧
        T.length = ([16] : List ℚ).length ∧
        ∀ (i : ℕ) (hw : i < ([16] : List ℚ).length) (hh : i < ([16] : List ℚ).length),
          T.get? i = some ⟨15/2 - (1/2) * (([16] : List ℚ).get ⟨i, hw⟩ - 1),
            15/2 - (1/2) * (([16] : List ℚ).get ⟨i, hh⟩ - 1),
            15/2 + (1/2) * (([16] : List ℚ).get ⟨i, hw⟩ - 1),
            15/2 + (1/2) * (([16] : List ℚ).get ⟨i, hh⟩ - 1)⟩) :=
  ⟨(C8_shape_mismatch [1] [2, 3] 5 7).1 (by norm_num),
   (C8_shape_mismatch [16] [16] (15/2) (15/2)).2 rfl⟩

/-- C9: round-trip: decomposing a box with `_whctrs` and rebuilding with
`_mkanchors` from the singleton width/height vectors and the center
reconstructs exactly the original box. -/
theorem C9_roundtrip (box : Box) (hx : box.x1 ≤ box.x2) (hy : box.y1 ≤ box.y2) :
    mkanchors [(whctrs box).1] [(whctrs box).2.1]
      (whctrs box).2.2.1 (whctrs box).2.2.2 = some [box] := by
  obtain ⟨x1, y1, x2, y2⟩ := box
  rw [mkanchors_eq_some _ _ _ _ (by simp)]
  simp only [whctrs, List.zip_cons_cons, List.zip_nil_right, List.map_cons, List.map_nil,
    Option.some.injEq, List.cons.injEq, and_true, Box.mk.injEq]
  refine ⟨?_, ?_, ?_, ?_⟩ <;> ring

/-- C9 witness at the base anchor `(0, 0, 15, 15)`. -/
theorem C9_roundtrip_witness :
    mkanchors [(whctrs ⟨0, 0, 15, 15⟩).1] [(whctrs ⟨0, 0, 15, 15⟩).2.1]
      (whctrs ⟨0, 0, 15, 15⟩).2.2.1 (whctrs ⟨0, 0, 15, 15⟩).2.2.2 =
        some [⟨0, 0, 15, 15⟩] :=
  C9_roundtrip ⟨0, 0, 15, 15⟩ (by norm_num) (by norm_num)

/-- C10: global center invariant: every row of the table returned by
`generate_anchors` satisfies `x1 + x2 = base_size - 1` and
`y1 + y2 = base_size - 1` — all anchors are centered on the base anchor's
center. -/
theorem C10_global_center (base_size : ℚ) (ratios scales : List ℚ)
    (hrs : ∀ r ∈ ratios, 0 < r) (hss : ∀ s ∈ scales, 0 < s)
    (T : List Box) (hT : generate_anchors base_size ratios scales = some T) :
    ∀ box ∈ T,
      box.x1 + box.x2 = base_size - 1 ∧ box.y1 + box.y2 = base_size - 1 := by
  intro box hbox
  obtain ⟨r, _, s, _, rfl⟩ := mem_generate_anchors hT hbox
  constructor <;> (simp only [scaleBox, ratioBox, base_anchor]; ring)

/-- C10 witness: the output row for `base_size = 16`, `ratio = 1`,
`scale = 8` is centered on the base anchor's center. -/
theorem C10_global_center_witness :
    (scaleBox (ratioBox (base_anchor 16) 1) 8).x1 +
        (scaleBox (ratioBox (base_anchor 16) 1) 8).x2 = (16 : ℚ) - 1 ∧
      (scaleBox (ratioBox (base_anchor 16) 1) 8).y1 +
        (scaleBox (ratioBox (base_anchor 16) 1) 8).y2 = (16 : ℚ) - 1 :=
  C10_global_center 16 [1] [8] (by norm_num) (by norm_num)
    _ (generate_anchors_eq 16 [1] [8] (List.cons_ne_nil _ _))
    (scaleBox (ratioBox (base_anchor 16) 1) 8) (by simp)

end GenerateAnchors
